import Mathlib

/-!
Verification of the diff-slider heuristics core (`diff_heuristics.py`).

This file gives a shallow embedding of the program's data model and
operations in Lean 4 and proves or refutes the specification claims about
them.  Python lists become `List`, machine integers become `Int`/`Nat`
(Python integers are unbounded, so no wrap-around modelling is needed),
`None`-able values become `Option`, and code paths that raise exceptions
return `Option`/`Except`.  Mutation of a slider is modelled by explicit
state passing: every mutating method becomes a function `Slider → … →
Slider`.  The hunk and the slider own separate storage in the model,
because `Group.__init__` and `Change.__init__` both copy their argument
(`self.difflines = list(difflines)`), and `Slider.slide` only ever assigns
to the slider's own objects (`self.pre_context.difflines`,
`self.change.difflines`, `self.post_context.difflines`, attributes of
`self`); consequently no aliasing exists between a hunk's groups and the
groups of a slider produced by `Hunk.iter_sliders`.
-/

/-- Python whitespace characters, as recognised by `str.rstrip()`. -/
def pyIsSpace (c : Char) : Bool :=
  c == ' ' || c == '\t' || c == '\n' || c == '\r' || c == '\x0b' || c == '\x0c'

/-- Embedding of Python `line.rstrip()` on the character list of a line. -/
def rstripData (l : List Char) : List Char :=
  (l.reverse.dropWhile pyIsSpace).reverse

/-- Inner loop of `get_indent`: spaces count 1, tabs advance to the next
multiple of 8, any other character stops the scan. -/
def indentGo : List Char → Int → Int
  | [], r => r
  | c :: rest, r =>
    if c = ' ' then indentGo rest (r + 1)
    else if c = '\t' then indentGo rest (r + (8 - r % 8))
    else r

/-- Embedding of `get_indent(line)`: `none` for a blank (whitespace-only)
line, otherwise the indentation width of the line. -/
def getIndent (s : String) : Option Int :=
  let l := rstripData s.data
  if l = [] then none else some (indentGo l 0)

/-- A line is blank iff `get_indent` returns `None`. -/
def isBlankS (s : String) : Bool := (getIndent s).isNone

/-- Embedding of the `SplitMeasurements` record. -/
structure SplitMeasurements where
  end_of_hunk : Bool
  indent : Option Int
  pre_blank : Nat
  pre_indent : Option Int
  post_blank : Nat
  post_indent : Option Int
deriving DecidableEq, Repr

/-- Embedding of the pre-split scan loop of `SplitMeasurements.measure`
(`i = index - 1; while i >= 0: …`).  The first argument is `i + 1`, so the
pattern `i + 1` reads `lines[i]`.  Reading past the end of the list is an
uncaught `IndexError` in the source, embedded as `none`. -/
def preScanE (lines : List String) : Nat → Nat → Option (Nat × Option Int)
  | 0, blanks => some (blanks, none)
  | i + 1, blanks =>
    match lines.get? i with
    | none => none
    | some l =>
      match getIndent l with
      | some v => some (blanks, some v)
      | none => preScanE lines i (blanks + 1)

/-- Embedding of the post-split scan loop of `SplitMeasurements.measure`,
running over the lines strictly after the line following the split. -/
def postScan : List String → Nat × Option Int
  | [] => (0, none)
  | l :: rest =>
    match getIndent l with
    | some v => (0, some v)
    | none =>
      let r := postScan rest
      (r.1 + 1, r.2)

/-- Embedding of `SplitMeasurements.measure(lines, index)`.  The result is
`none` when the Python code raises an uncaught `IndexError` (which happens
exactly when `index > len(lines)`: the pre-split loop then reads
`lines[index - 1]` out of range, outside the `try` block). -/
def measureE (lines : List String) (index : Nat) : Option SplitMeasurements := do
  let top : Bool × Option Int :=
    match lines.get? index with
    | none => (true, none)
    | some l => (false, getIndent l)
  let pre ← preScanE lines index 0
  let post := postScan (lines.drop (index + 1))
  pure ⟨top.1, top.2, pre.1, pre.2, post.1, post.2⟩

/-- Total wrapper around `measureE` used by the scoring pipeline; all call
sites inside the program satisfy `index ≤ lines.length` (guaranteed by the
asserts in `Slider.get_score`), where the two functions agree. -/
def measureT (lines : List String) (index : Nat) : SplitMeasurements :=
  (measureE lines index).getD ⟨true, none, 0, none, 0, none⟩

/-- Claim-side description of a measurement (spec §4.1): each field written
directly as a function of the line array and the index, using
`takeWhile`/`dropWhile` for the blank runs around the split. -/
def specMeasure (lines : List String) (j : Nat) : SplitMeasurements where
  end_of_hunk := decide (lines.length ≤ j)
  indent := (lines.get? j).bind getIndent
  pre_blank := ((lines.take j).reverse.takeWhile isBlankS).length
  pre_indent := (((lines.take j).reverse.dropWhile isBlankS).head?).bind getIndent
  post_blank := ((lines.drop (j + 1)).takeWhile isBlankS).length
  post_indent := (((lines.drop (j + 1)).dropWhile isBlankS).head?).bind getIndent

/-- Parameter vector of `SplitScorer1` (names and defaults from the
`PARAMETERS` class attribute). -/
structure Scorer1Params where
  start_of_hunk_bonus : Int
  end_of_hunk_bonus : Int
  follows_blank_bonus : Int
  precedes_blank_bonus : Int
  between_blanks_bonus : Int
  relative_indent_bonus : Int
  relative_outdent_bonus : Int
  relative_dedent_bonus : Int
  block_bonus : Int
deriving DecidableEq, Repr

/-- Default parameters of `SplitScorer1`. -/
def scorer1Defaults : Scorer1Params :=
  ⟨9, 20, 20, 5, 19, -2, -13, -13, -1⟩

/-- Embedding of `SplitScorer1.evaluate(m)`, following the source line by
line: the bonus accumulation, the `indent`/`post_indent` substitution for a
blank line, and the indent-relation cases. -/
def evaluate1 (p : Scorer1Params) (m : SplitMeasurements) : Int :=
  let bonus : Int := 0
  let bonus := if m.pre_indent = none ∧ m.pre_blank = 0
    then bonus + p.start_of_hunk_bonus else bonus
  let bonus := if m.end_of_hunk then bonus + p.end_of_hunk_bonus else bonus
  let bonus :=
    if m.pre_blank ≠ 0 ∧ m.indent ≠ none then bonus + p.follows_blank_bonus
    else if m.indent = none ∧ m.pre_blank = 0 then bonus + p.precedes_blank_bonus
    else if m.indent = none ∧ m.pre_blank ≠ 0 then bonus + p.between_blanks_bonus
    else bonus
  let ind : Option Int := match m.indent with
    | some i => some i
    | none => m.post_indent
  match ind with
  | none => 10 * 0 - bonus
  | some indent =>
    match m.pre_indent with
    | none => 10 * indent - bonus
    | some pre =>
      if indent > pre then 10 * indent - (bonus + p.relative_indent_bonus)
      else if indent < pre then
        if (match m.post_indent with
            | none => true
            | some post => decide (indent ≥ post)) then
          10 * indent - (bonus + p.relative_dedent_bonus)
        else
          10 * indent - (bonus + p.relative_outdent_bonus)
      else
        if m.indent ≠ none then 10 * indent - (bonus + p.block_bonus)
        else 10 * indent - bonus

/-- Parameter vector of `SplitScorer3` (names and defaults from the
`PARAMETERS` class attribute). -/
structure Scorer3Params where
  start_of_hunk_penalty : Int
  end_of_hunk_penalty : Int
  total_blank_weight : Int
  post_blank_weight : Int
  relative_indent_penalty : Int
  relative_indent_with_blank_penalty : Int
  relative_outdent_penalty : Int
  relative_outdent_with_blank_penalty : Int
  relative_dedent_penalty : Int
  relative_dedent_with_blank_penalty : Int
deriving DecidableEq, Repr

/-- Default parameters of `SplitScorer3` (the program's default scorer). -/
def scorer3Defaults : Scorer3Params :=
  ⟨1, 21, -30, 6, -4, 10, 24, 17, 23, 17⟩

/-- Embedding of the compound score class `SplitScore3`: an effective
indent plus a penalty.  (The Python object also carries a back reference
to its scorer, which takes no part in comparison or addition and is
dropped here.) -/
structure SplitScore3 where
  effective_indent : Int
  penalty : Int
deriving DecidableEq, Repr

/-- Embedding of `SplitScore3.__add__`: componentwise addition. -/
def add3 (a b : SplitScore3) : SplitScore3 :=
  ⟨a.effective_indent + b.effective_indent, a.penalty + b.penalty⟩

/-- Embedding of `SplitScore3.__le__`:
`60 * cmp(indents) + (penalty difference) ≤ 0`. -/
def le3 (a b : SplitScore3) : Bool :=
  let cmp : Int :=
    (if a.effective_indent > b.effective_indent then 1 else 0)
    - (if a.effective_indent < b.effective_indent then 1 else 0)
  decide (60 * cmp + (a.penalty - b.penalty) ≤ 0)

/-- Embedding of `SplitScorer3.evaluate(m)`. -/
def evaluate3 (p : Scorer3Params) (m : SplitMeasurements) : SplitScore3 :=
  let penalty : Int := 0
  let penalty := if m.pre_indent = none ∧ m.pre_blank = 0
    then penalty + p.start_of_hunk_penalty else penalty
  let penalty := if m.end_of_hunk then penalty + p.end_of_hunk_penalty else penalty
  let postBlank : Int := if m.indent = none then 1 + (m.post_blank : Int) else 0
  let totalBlank : Int := (m.pre_blank : Int) + postBlank
  let penalty := penalty + p.total_blank_weight * totalBlank
    + p.post_blank_weight * postBlank
  let ind : Option Int := match m.indent with
    | some i => some i
    | none => m.post_indent
  let isBlank : Bool := totalBlank ≠ 0
  let effective : Int := match ind with
    | none => -1
    | some i => i
  let penalty := match ind, m.pre_indent with
    | none, _ => penalty
    | some _, none => penalty
    | some i, some pre =>
      if i > pre then
        penalty + (if isBlank then p.relative_indent_with_blank_penalty
                   else p.relative_indent_penalty)
      else if i = pre then penalty
      else
        if (match m.post_indent with
            | none => true
            | some post => decide (i ≥ post)) then
          penalty + (if isBlank then p.relative_dedent_with_blank_penalty
                     else p.relative_dedent_penalty)
        else
          penalty + (if isBlank then p.relative_outdent_with_blank_penalty
                     else p.relative_outdent_penalty)
  ⟨effective, penalty⟩

/-- Embedding of `DiffLine`: a prefix character (` `, `-`, `+`, or `\`
before filtering) and the line text.  The Python attribute `prefix` is
called `pfx` here. -/
structure DiffLine where
  pfx : Char
  line : String
deriving DecidableEq, Repr

/-- Embedding of the `DiffLine` constructor.  `DiffLine.__init__` performs
no validation at all, so construction always succeeds; the `Option` result
type only exists so that the (absent) rejection behaviour can be stated. -/
def diffLineInit (pfx : Char) (line : String) : Option DiffLine :=
  some ⟨pfx, line⟩

/-- Embedding of a `Change` group: the diffline list plus the derived
`deletes`, `adds` and composite prefix attributes, which `slide` updates
separately from `difflines`. -/
structure Change where
  difflines : List DiffLine
  deletes : List DiffLine
  adds : List DiffLine
  pfx : Char
deriving DecidableEq, Repr

/-- The error channel of the parser: `parsing` is a `ParsingError` (caught
at the outer iteration); `crash` is any other uncaught exception
(`IndexError`, `AssertionError`, `RuntimeError`), which aborts the whole
iteration. -/
inductive PError where
  | parsing (msg : String)
  | crash
deriving DecidableEq, Repr

/-- Embedding of `Change.__init__`: rejects an empty diffline list with a
`ParsingError`, computes `deletes`/`adds` by filtering on the prefix, and
derives the composite prefix (`?` when both sides are present,
`RuntimeError` when neither is). -/
def changeInit (ds : List DiffLine) : Except PError Change :=
  if ds = [] then .error (.parsing "difflines is empty")
  else
    let del := ds.filter (fun d => d.pfx == '-')
    let add := ds.filter (fun d => d.pfx == '+')
    if del ≠ [] ∧ add ≠ [] then .ok ⟨ds, del, add, '?'⟩
    else if del ≠ [] then .ok ⟨ds, del, add, '-'⟩
    else if add ≠ [] then .ok ⟨ds, del, add, '+'⟩
    else .error .crash

/-- Total version of `changeInit` used where the program guarantees a
nonempty single-sided or mixed diffline list (such as
`Slider.__init__` receiving an existing change group's lines). -/
def changeUnsafe (ds : List DiffLine) : Change :=
  (changeInit ds).toOption.getD ⟨ds, [], [], '?'⟩

/-- One step of the `while` loops in `Slider._compute_shift_range`:
`ok d` is the loop condition after `d` successful iterations. -/
def whileCount (ok : Nat → Bool) : Nat → Nat → Nat
  | d, 0 => d
  | d, fuel + 1 => if ok d then whileCount ok (d + 1) fuel else d

/-- The text of the diffline at an index, if in range. -/
def lineAt (l : List DiffLine) (i : Nat) : Option String :=
  (l.get? i).map DiffLine.line

/-- Loop condition of the downward scan in `_compute_shift_range` at
`shift_min = -d`: both indices in bounds and the line pair equal
(`self[shift_min - 1].line == self[len(change) + shift_min - 1].line`,
which is `pre[len(pre) - 1 - d]` against `change[len(change) - 1 - d]`). -/
def downOk (pre ch : List DiffLine) (d : Nat) : Bool :=
  decide (d < pre.length) && decide (d < ch.length) &&
    (lineAt pre (pre.length - 1 - d) == lineAt ch (ch.length - 1 - d))

/-- Loop condition of the upward scan in `_compute_shift_range` at
`shift_limit = u + 1`: both indices in bounds and
`change[u].line == post[u].line`. -/
def upOk (ch post : List DiffLine) (u : Nat) : Bool :=
  decide (u < ch.length) && decide (u < post.length) &&
    (lineAt ch u == lineAt post u)

/-- Embedding of `Slider._compute_shift_range()`: extends `shift_min`
downward and `shift_limit` upward while the pairwise equality holds,
returning the half-open interval `(shift_min, shift_limit)`.  The fuel of
each loop is an upper bound on its iteration count (the bound checks in
`downOk`/`upOk` fail no later than the fuel runs out). -/
def computeShiftRange (pre ch post : List DiffLine) : Int × Int :=
  let down := whileCount (downOk pre ch) 0 (min pre.length ch.length)
  let up := whileCount (upOk ch post) 0 (min ch.length post.length)
  (-(down : Int), (up : Int) + 1)

/-- Embedding of the `Slider` object state.  `difflines` and `lines` are
snapshots taken at construction (the source initialises them from
`itertools.chain(pre_context, change, post_context)` and never updates
them in `slide`); `measurements` is the memoised `measure()` cache. -/
structure Slider where
  pre_context : List DiffLine
  change : Change
  post_context : List DiffLine
  difflines : List DiffLine
  line_number : Int
  pfx : Char
  shift_range : Int × Int
  lines : List String
  measurements : List (Int × SplitMeasurements)
deriving DecidableEq, Repr

/-- Embedding of `Slider.__init__`.  (The constructor also asserts that the
change is single-sided and that the computed shift range has length > 1;
those asserts hold for every slider produced by `Hunk.iter_sliders`.) -/
def sliderInit (pre : List DiffLine) (ch : Change) (post : List DiffLine)
    (lineNumber : Int) : Slider :=
  let all := pre ++ ch.difflines ++ post
  { pre_context := pre
    change := ch
    post_context := post
    difflines := all
    line_number := lineNumber
    pfx := ch.pfx
    shift_range := computeShiftRange pre ch.difflines post
    lines := all.map DiffLine.line
    measurements := [] }

/-- Embedding of `Slider.slide(shift)`.  Python's clamping slice semantics
(`lst[shift:]`, `del lst[:shift]`, …) correspond exactly to `List.take` /
`List.drop` with truncated `Nat` subtraction.  Note two source behaviours
retained faithfully: `shift == 0` returns immediately (no field is touched,
including the measurement cache), and the `deletes`/`adds` sublists only
ever receive the newly converted lines (the lines leaving the change are
not removed from them). -/
def slide (sl : Slider) (shift : Int) : Slider :=
  if shift = 0 then sl
  else
    let afterMove :=
      if shift < 0 then
        let k := (-shift).toNat
        let cs := sl.change.difflines
        let movedOut := (cs.drop (cs.length - k)).map (fun d => DiffLine.mk ' ' d.line)
        let cs1 := cs.take (cs.length - k)
        let post1 := movedOut ++ sl.post_context
        let ps := sl.pre_context
        let movedIn := (ps.drop (ps.length - k)).map
          (fun d => DiffLine.mk sl.change.pfx d.line)
        let pre1 := ps.take (ps.length - k)
        let cs2 := movedIn ++ cs1
        let del1 := if sl.change.pfx = '-' then movedIn ++ sl.change.deletes
          else sl.change.deletes
        let add1 := if sl.change.pfx = '-' then sl.change.adds
          else movedIn ++ sl.change.adds
        { sl with
          pre_context := pre1
          change := ⟨cs2, del1, add1, sl.change.pfx⟩
          post_context := post1 }
      else
        let k := shift.toNat
        let cs := sl.change.difflines
        let movedOut := (cs.take k).map (fun d => DiffLine.mk ' ' d.line)
        let cs1 := cs.drop k
        let pre1 := sl.pre_context ++ movedOut
        let movedIn := (sl.post_context.take k).map
          (fun d => DiffLine.mk sl.change.pfx d.line)
        let post1 := sl.post_context.drop k
        let cs2 := cs1 ++ movedIn
        let del1 := if sl.change.pfx = '-' then sl.change.deletes ++ movedIn
          else sl.change.deletes
        let add1 := if sl.change.pfx = '-' then sl.change.adds
          else sl.change.adds ++ movedIn
        { sl with
          pre_context := pre1
          change := ⟨cs2, del1, add1, sl.change.pfx⟩
          post_context := post1 }
    { afterMove with
      shift_range := (sl.shift_range.1 - shift, sl.shift_range.2 - shift)
      line_number := sl.line_number + shift
      measurements := [] }

/-- A sequence of `slide` calls, applied left to right. -/
def slideSeq (sl : Slider) (shifts : List Int) : Slider :=
  shifts.foldl slide sl

/-- Embedding of `Slider.shift_canonically()`: slide by the largest legal
shift `shift_range[-1] = stop - 1` and return its negation. -/
def shiftCanonically (sl : Slider) : Slider × Int :=
  let maxShift := sl.shift_range.2 - 1
  (slide sl maxShift, -maxShift)

/-- Embedding of `Slider.measure(split)` without the cache:
`SplitMeasurements.measure(self.lines, split + len(self.pre_context))`.
All program call sites satisfy `-len(pre_context) ≤ split` and
`split + len(pre_context) ≤ len(lines)` (asserted in `get_score`), where
`Int.toNat` and `measureT` are faithful. -/
def measureSl (sl : Slider) (split : Int) : SplitMeasurements :=
  measureT sl.lines (split + (sl.pre_context.length : Int)).toNat

/-- Embedding of `Slider.get_score(scorer, shift)` for `SplitScorer1`. -/
def getScore1 (sl : Slider) (p : Scorer1Params) (shift : Int) : Int :=
  evaluate1 p (measureSl sl shift)
    + evaluate1 p (measureSl sl (shift + sl.change.difflines.length))

/-- Embedding of `Slider.get_score(scorer, shift)` for `SplitScorer3`. -/
def getScore3 (sl : Slider) (p : Scorer3Params) (shift : Int) : SplitScore3 :=
  add3 (evaluate3 p (measureSl sl shift))
    (evaluate3 p (measureSl sl (shift + sl.change.difflines.length)))

/-- The ascending enumeration of `n` integers starting at `a`. -/
def intRangeGo (a : Int) : Nat → List Int
  | 0 => []
  | n + 1 => a :: intRangeGo (a + 1) n

/-- The ascending list of shifts in the half-open interval `[a, b)`
(Python `range(a, b)`). -/
def intRange (a b : Int) : List Int :=
  intRangeGo a (b - a).toNat

/-- One acceptance step of the scan in `Slider.find_best_shift`: the first
score is always accepted (`best_score is None`), afterwards a score is
accepted iff `score <= best_score`. -/
def fbsStep (score : Int → α) (le : α → α → Bool)
    (best : Int × Option α) (s : Int) : Int × Option α :=
  match best.2 with
  | none => (s, some (score s))
  | some bs => if le (score s) bs then (s, some (score s)) else best

/-- Embedding of `Slider.find_best_shift(scorer)`, generic over the score
type and its `<=` test: if the range has length one return its only
element, otherwise scan the shifts in ascending order starting from
`best_shift = 0, best_score = None`. -/
def findBestShift (r : Int × Int) (score : Int → α) (le : α → α → Bool) : Int :=
  if r.2 - r.1 = 1 then r.1
  else ((intRange r.1 r.2).foldl (fbsStep score le) (0, none)).1

/-- `find_best_shift` for an integer-scored scorer (`SplitScorer1` and
`SplitScorer2` return plain `int` scores). -/
def findBestShiftInt (r : Int × Int) (score : Int → Int) : Int :=
  findBestShift r score (fun x y => decide (x ≤ y))

/-- `find_best_shift` for the compound-scored `SplitScorer3`. -/
def findBestShiftSl3 (sl : Slider) (p : Scorer3Params) : Int :=
  findBestShift sl.shift_range (getScore3 sl p) le3

/-- Character-list prefix test (used to embed Python `str.startswith`). -/
def startsWithL : List Char → List Char → Bool
  | [], _ => true
  | _ :: _, [] => false
  | p :: ps, c :: cs => if p = c then startsWithL ps cs else false

/-- Python `s.startswith(pat)` on our line strings. -/
def sStartsWith (s pat : String) : Bool := startsWithL pat.data s.data

/-- Strip a known character-list prefix, returning the remainder. -/
def stripL : List Char → List Char → Option (List Char)
  | [], l => some l
  | _ :: _, [] => none
  | p :: ps, c :: cs => if p = c then stripL ps cs else none

/-- Characters that `shlex.quote` leaves unquoted: ASCII word characters
and `@ % + = : , .`, the solidus and the hyphen (the complement of the
`_find_unsafe` regex character class of the `shlex` module). -/
def shlexSafeChar (c : Char) : Bool :=
  c.isAlpha || c.isDigit || c = '_' || c = '@' || c = '%' || c = '+'
    || c = '=' || c = ':' || c = ',' || c = '.' || c = '/' || c = '-'

/-- The replacement `s.replace("'", "'\"'\"'")` performed by `shlex.quote`
on an unsafe string. -/
def quoteReplace : List Char → List Char
  | [] => []
  | c :: rest =>
    if c = '\'' then '\'' :: '"' :: '\'' :: '"' :: '\'' :: quoteReplace rest
    else c :: quoteReplace rest

/-- Embedding of `shlex.quote(s)` (POSIX shell quoting): an empty string
becomes two apostrophes, a string of safe characters is returned unchanged,
anything else is wrapped in apostrophes with inner apostrophes escaped. -/
def shlexQuote (s : String) : String :=
  if s.data = [] then String.mk ['\'', '\'']
  else if s.data.all shlexSafeChar then s
  else String.mk ('\'' :: (quoteReplace s.data ++ ['\'']))

/-- The filename-safety test of `FileDiff.__init__`:
`shlex.quote(filename) != filename`.  A missing filename (`/dev/null`,
parsed as `None`) also fails the test, because `shlex.quote(None)`
evaluates `not None` as true and returns the two-apostrophe string, which
differs from `None`. -/
def filenameUnsafe : Option String → Bool
  | none => true
  | some f => shlexQuote f ≠ f

/-- Run of one or more characters satisfying a predicate, with remainder
(used to embed the `+`-quantified character classes of the parsing
regexes). -/
def takeRun (p : Char → Bool) (l : List Char) : Option (List Char × List Char) :=
  let t := l.takeWhile p
  if t = [] then none else some (t, l.drop t.length)

/-- Lower-case hexadecimal digit (`[0-9a-f]`). -/
def isHexDigit (c : Char) : Bool := c.isDigit || ('a' ≤ c && c ≤ 'f')

/-- Octal digit (`[0-7]`). -/
def isOctalDigit (c : Char) : Bool := '0' ≤ c && c ≤ '7'

/-- Numeric value of a digit run. -/
def natOfDigits (l : List Char) : Nat :=
  l.foldl (fun n c => n * 10 + (c.toNat - 48)) 0

/-- Embedding of `FileDiff.INDEX_RE`
(`^index ([0-9a-f]+)\.\.([0-9a-f]+) [0-7]+$`): the two sha1 groups. -/
def parseIndexLine (s : String) : Option (String × String) := do
  let r ← stripL "index ".data s.data
  let (h1, r) ← takeRun isHexDigit r
  let r ← stripL "..".data r
  let (h2, r) ← takeRun isHexDigit r
  let r ← stripL " ".data r
  let (_, r) ← takeRun isOctalDigit r
  if r = [] then some (String.mk h1, String.mk h2) else none

/-- Embedding of `FileDiff.get_filename` with `OLD_FILE_RE`/`NEW_FILE_RE`
(`^--- (/dev/null|a/(.*))$` and the `+++`/`b/` variant): `none` stands for
the `/dev/null` alternative, in which the `filename` group is `None`. -/
def getFilename (lead : String) (ab : Char) (s : String) :
    Except PError (Option String) :=
  match stripL lead.data s.data with
  | none => .error (.parsing ("could not parse filename from " ++ s))
  | some rest =>
    if rest = "/dev/null".data then .ok none
    else
      match rest with
      | c :: '/' :: tail =>
        if c = ab then .ok (some (String.mk tail))
        else .error (.parsing ("could not parse filename from " ++ s))
      | _ => .error (.parsing ("could not parse filename from " ++ s))

/-- Embedding of `Hunk.HEADER_RE`
(`^@@\s\-(\d+)(,(\d+))?\s\+(\d+)(,(\d+))?\s@@`, a prefix match, with the
whitespace atoms realised as the space character): old start, optional old
length, new start, optional new length. -/
def parseHunkHeader (s : String) : Option (Int × Option Int × Int × Option Int) := do
  let r ← stripL "@@ -".data s.data
  let (d1, r) ← takeRun Char.isDigit r
  let (len1, r) ←
    match r with
    | ',' :: r2 => do
      let (d, r3) ← takeRun Char.isDigit r2
      pure (some (natOfDigits d), r3)
    | _ => pure ((none : Option Nat), r)
  let r ← stripL " +".data r
  let (d2, r) ← takeRun Char.isDigit r
  let (len2, r) ←
    match r with
    | ',' :: r2 => do
      let (d, r3) ← takeRun Char.isDigit r2
      pure (some (natOfDigits d), r3)
    | _ => pure ((none : Option Nat), r)
  let _ ← stripL " @@".data r
  pure ((natOfDigits d1 : Int), len1.map (Nat.cast),
    (natOfDigits d2 : Int), len2.map (Nat.cast))

/-- A group of a hunk body: a context group (all space-prefixed lines) or a
change group. -/
inductive HGroup where
  | context (difflines : List DiffLine)
  | change (c : Change)
deriving DecidableEq, Repr

/-- `Group.old_lines` / `Change.old_lines`: context lines pass through,
change groups contribute their deletions. -/
def groupOldLines : HGroup → List DiffLine
  | .context l => l
  | .change c => c.deletes

/-- `Group.new_lines` / `Change.new_lines`: context lines pass through,
change groups contribute their additions. -/
def groupNewLines : HGroup → List DiffLine
  | .context l => l
  | .change c => c.adds

/-- Embedding of the generator `Hunk.iter_groups`: the state is the
`processing_change` flag and the group being accumulated. -/
def iterGroupsGo : Bool → List DiffLine → List DiffLine →
    Except PError (List HGroup)
  | processing, group, [] =>
    if processing then do
      let c ← changeInit group
      pure [.change c, .context []]
    else pure [.context group]
  | processing, group, d :: rest =>
    if d.pfx = '\\' then iterGroupsGo processing group rest
    else if d.pfx ≠ ' ' ∧ ¬processing then do
      let out ← iterGroupsGo true [d] rest
      pure (.context group :: out)
    else if d.pfx = ' ' ∧ processing then do
      let c ← changeInit group
      let out ← iterGroupsGo false [d] rest
      pure (.change c :: out)
    else iterGroupsGo processing (group ++ [d]) rest

/-- Embedding of `Hunk.iter_groups(difflines)`. -/
def iterGroups (ds : List DiffLine) : Except PError (List HGroup) :=
  iterGroupsGo false [] ds

/-- Embedding of the `Hunk` object. -/
structure Hunk where
  old_filename : Option String
  new_filename : Option String
  old_line : Int
  old_len : Option Int
  new_line : Int
  new_len : Option Int
  difflines : List DiffLine
  groups : List HGroup
deriving DecidableEq, Repr

/-- Embedding of `Hunk.__init__`: parse the `@@` header, split each body
line into prefix and text (`line[0]` on an empty line is an uncaught
`IndexError`), and group the difflines. -/
def hunkInit (oldF newF : Option String) (lines : List String) :
    Except PError Hunk :=
  match lines with
  | [] => .error .crash
  | header :: body =>
    match parseHunkHeader header with
    | none => .error (.parsing ("Error parsing " ++ header))
    | some (ol, olen, nl, nlen) => do
      let ds ← body.mapM (fun line =>
        match line.data with
        | [] => Except.error PError.crash
        | c :: rest => Except.ok (DiffLine.mk c (String.mk rest)))
      let gs ← iterGroups ds
      pure ⟨oldF, newF, ol, olen, nl, nlen, ds, gs⟩

/-- Hunk-level `old_lines()`: concatenation over the groups. -/
def hunkOldLines (h : Hunk) : List DiffLine :=
  (h.groups.map groupOldLines).flatten

/-- Hunk-level `new_lines()`: concatenation over the groups. -/
def hunkNewLines (h : Hunk) : List DiffLine :=
  (h.groups.map groupNewLines).flatten

/-- The diffline list of the change group at position `i` of a hunk's
group list (the object `slide` would have to mutate for the hunk to track
a slider's placement). -/
def hunkChangeAt (h : Hunk) (i : Nat) : List DiffLine :=
  match h.groups.get? i with
  | some (.change c) => c.difflines
  | _ => []

/-- Embedding of the loop body of `Hunk.iter_sliders` at group index `i`
(odd indices are change groups); the fuel argument bounds the recursion
`i → i + 2`.  Group shapes other than Context/Change/Context cannot occur
for parser-produced hunks (`iter_groups` alternates strictly). -/
def iterSlidersGo (h : Hunk) : Nat → Nat → List Slider
  | _, 0 => []
  | i, fuel + 1 =>
    if i + 1 < h.groups.length then
      let rest := iterSlidersGo h (i + 2) fuel
      match h.groups.get? (i - 1), h.groups.get? i, h.groups.get? (i + 1) with
      | some (.context preg), some (.change ch), some (.context postg) =>
        if ch.pfx = '-' ∨ ch.pfx = '+' then
          let sel : HGroup → List DiffLine :=
            if ch.pfx = '-' then groupOldLines else groupNewLines
          let ref : Int := if ch.pfx = '-' then h.old_line else h.new_line
          let canUp : Bool :=
            match preg.getLast?, ch.difflines.getLast? with
            | some a, some b => a.line = b.line
            | _, _ => false
          let canDown : Bool :=
            match postg.head?, ch.difflines.head? with
            | some a, some b => a.line = b.line
            | _, _ => false
          if canUp || canDown then
            let preLines := ((h.groups.take i).map sel).flatten
            let postLines := ((h.groups.drop (i + 1)).map sel).flatten
            sliderInit preLines (changeUnsafe ch.difflines) postLines
              (ref + preLines.length) :: rest
          else rest
        else rest
      | _, _, _ => rest
    else []

/-- Embedding of `Hunk.iter_sliders()`. -/
def iterSliders (h : Hunk) : List Slider :=
  iterSlidersGo h 1 h.groups.length

/-- Embedding of the `FileDiff` object.  The sha1 and filename attributes
are only assigned on some code paths, hence the outer `Option`; the inner
`Option` of a filename is the `/dev/null` case. -/
structure FileDiff where
  old_sha1 : Option String
  new_sha1 : Option String
  old_filename : Option (Option String)
  new_filename : Option (Option String)
  hunks : List Hunk
deriving DecidableEq, Repr

/-- Split the hunk region of a file diff into chunks starting at `@@ `
lines (the `while i < len(lines)` loop of `FileDiff.__init__`); a chunk
not starting with `@@ ` is the loop's failing `assert`. -/
def hunkChunksGo : Nat → List String → Except PError (List (List String))
  | _, [] => .ok []
  | 0, _ :: _ => .error .crash
  | fuel + 1, l :: rest =>
    if sStartsWith l "@@ " then do
      let body := rest.takeWhile (fun x => ¬ sStartsWith x "@@ ")
      let rest2 := rest.dropWhile (fun x => ¬ sStartsWith x "@@ ")
      let more ← hunkChunksGo fuel rest2
      pure ((l :: body) :: more)
    else .error .crash

/-- Parse the hunk chunks of a file diff; a `ParsingError` from one hunk
is written to the diagnostic stream and the hunk skipped, any other
exception propagates. -/
def parseHunksGo (oldF newF : Option String) :
    List (List String) → Except PError (List Hunk)
  | [] => .ok []
  | c :: rest =>
    match hunkInit oldF newF c with
    | .ok h => do
      let hs ← parseHunksGo oldF newF rest
      pure (h :: hs)
    | .error (.parsing _) => parseHunksGo oldF newF rest
    | .error .crash => .error .crash

/-- Embedding of `FileDiff.__init__(lines)`, following the index-cursor
control flow of the source: locate the `diff ` line, skip the optional
`similarity`/`rename` and `new `/`deleted ` lines, match the `index` line,
then either the `Binary files` line or the two filename lines (each
checked for shell safety) followed by the hunks. -/
def parseFileDiff (lines : List String) : Except PError FileDiff :=
  if lines = [] then .error (.parsing "no lines in FileDiff")
  else
    match lines.findIdx? (fun l => sStartsWith l "diff ") with
    | none => .error (.parsing "diff line not found in FileDiff")
    | some idx =>
      match lines.drop (idx + 1) with
      | [] => .error .crash
      | l0 :: r0 =>
        let rest1 :=
          if sStartsWith l0 "similarity "
          then r0.dropWhile (fun x => sStartsWith x "rename ")
          else l0 :: r0
        let rest2 :=
          match rest1 with
          | l :: r =>
            if sStartsWith l "new " || sStartsWith l "deleted " then r else rest1
          | [] => rest1
        match rest2 with
        | [] => .ok ⟨none, none, none, none, []⟩
        | lIdx :: rest3 =>
          match parseIndexLine lIdx with
          | none => .ok ⟨none, none, none, none, []⟩
          | some (sha1, sha2) =>
            match rest3 with
            | [] => .error .crash
            | lB :: rest4 =>
              if sStartsWith lB "Binary files " then
                .ok ⟨some sha1, some sha2, none, none, []⟩
              else do
                let oldFn ← getFilename "--- " 'a' lB
                if filenameUnsafe oldFn then
                  Except.error (.parsing "filename is not safe for shell commands")
                else
                  match rest4 with
                  | [] => .error .crash
                  | lN :: rest5 => do
                    let newFn ← getFilename "+++ " 'b' lN
                    if filenameUnsafe newFn then
                      Except.error
                        (.parsing "filename is not safe for shell commands")
                    else do
                      let chunks ← hunkChunksGo rest5.length rest5
                      let hs ← parseHunksGo oldFn newFn chunks
                      pure ⟨some sha1, some sha2, some oldFn, some newFn, hs⟩

/-- Split a diff stream into file sections starting at `diff ` lines (the
outer loop of `iter_file_diffs`). -/
def sectionsGo : Nat → List String → List (List String)
  | 0, _ => []
  | _, [] => []
  | fuel + 1, l :: rest =>
    let body := rest.takeWhile (fun x => ¬ sStartsWith x "diff ")
    let rest2 := rest.dropWhile (fun x => ¬ sStartsWith x "diff ")
    (l :: body) :: sectionsGo fuel rest2

/-- Parse each file section, turning a `ParsingError` into a diagnostic
line (`Sum.inl`) and continuing with the next section, as the
`try/except ParsingError` of `iter_file_diffs` does. -/
def iterFDGo : List (List String) → Except PError (List (Sum String FileDiff))
  | [] => .ok []
  | sec :: rest =>
    match parseFileDiff sec with
    | .ok fd => do
      let more ← iterFDGo rest
      pure (.inr fd :: more)
    | .error (.parsing m) => do
      let more ← iterFDGo rest
      pure (.inl m :: more)
    | .error .crash => .error .crash

/-- Embedding of `iter_file_diffs(lines)`: the first line must be a
`diff ` line (the loop's `assert`), then every section is parsed with
per-section error recovery. -/
def iterFileDiffs (lines : List String) :
    Except PError (List (Sum String FileDiff)) :=
  match lines with
  | [] => .ok []
  | l :: _ =>
    if sStartsWith l "diff " then iterFDGo (sectionsGo lines.length lines)
    else .error .crash

/-- Claim-side legality of a shift (spec §3): for `s < 0` each of the last
`|s|` change lines equals the corresponding tail line of the pre-context;
for `s > 0` each of the first `s` change lines equals the corresponding
head line of the post-context; a required index out of bounds makes the
shift illegal; `s = 0` is always legal. -/
def LegalShift (pre ch post : List DiffLine) (s : Int) : Prop :=
  if s < 0 then
    (-s).toNat ≤ pre.length ∧ (-s).toNat ≤ ch.length ∧
      ∀ k, k < (-s).toNat →
        lineAt pre (pre.length - 1 - k) = lineAt ch (ch.length - 1 - k)
  else
    s.toNat ≤ ch.length ∧ s.toNat ≤ post.length ∧
      ∀ k, k < s.toNat → lineAt ch k = lineAt post k

instance (pre ch post : List DiffLine) (s : Int) :
    Decidable (LegalShift pre ch post s) := by
  unfold LegalShift; infer_instance

/-- Legality of a shift for the current state of a slider. -/
def legalShiftD (sl : Slider) (s : Int) : Prop :=
  LegalShift sl.pre_context sl.change.difflines sl.post_context s

instance (sl : Slider) (s : Int) : Decidable (legalShiftD sl s) := by
  unfold legalShiftD; infer_instance

/-- A sequence of shifts, each legal in the state produced by the
preceding slides. -/
def legalSeqB (sl : Slider) : List Int → Bool
  | [] => true
  | s :: rest => decide (legalShiftD sl s) && legalSeqB (slide sl s) rest

/-- The concatenated line texts of a slider's groups, in order
(pre-context, change, post-context). -/
def sliderTexts (sl : Slider) : List String :=
  sl.pre_context.map DiffLine.line ++ sl.change.difflines.map DiffLine.line
    ++ sl.post_context.map DiffLine.line

/-- The joint state of a hunk and one slider produced from it.  The two
components own separate storage (see the header comment: slider
construction copies every group list), so `slide` acts on the slider
component only. -/
structure World where
  hunk : Hunk
  slider : Slider
deriving DecidableEq, Repr

/-- `Slider.slide` acting on the joint state: the hunk component is
untouched because no aliasing exists between the hunk's groups and the
slider's groups. -/
def worldSlide (w : World) (s : Int) : World :=
  ⟨w.hunk, slide w.slider s⟩

/-- A sequence of `slide` calls on the joint state. -/
def worldSlideSeq (w : World) (shifts : List Int) : World :=
  shifts.foldl worldSlide w

/-- Claim-side version of `SplitScorer1.evaluate` (spec §4.2.1 wording):
`blank = (indent is none)`, `indent` replaced by `post_indent` when blank,
and any `none` pre/post indent treated as 0 in the indent relation. -/
def evaluate1Claim (p : Scorer1Params) (m : SplitMeasurements) : Int :=
  let bonus : Int := 0
  let bonus := if m.pre_indent = none ∧ m.pre_blank = 0
    then bonus + p.start_of_hunk_bonus else bonus
  let bonus := if m.end_of_hunk then bonus + p.end_of_hunk_bonus else bonus
  let bonus :=
    if m.pre_blank ≠ 0 ∧ m.indent ≠ none then bonus + p.follows_blank_bonus
    else if m.indent = none ∧ m.pre_blank = 0 then bonus + p.precedes_blank_bonus
    else if m.indent = none ∧ m.pre_blank ≠ 0 then bonus + p.between_blanks_bonus
    else bonus
  let blank : Bool := m.indent.isNone
  let ind : Int := if blank then m.post_indent.getD 0 else m.indent.getD 0
  let pre0 : Int := m.pre_indent.getD 0
  let post0 : Int := m.post_indent.getD 0
  if ind > pre0 then 10 * ind - (bonus + p.relative_indent_bonus)
  else if ind < pre0 then
    if ind ≥ post0 then 10 * ind - (bonus + p.relative_dedent_bonus)
    else 10 * ind - (bonus + p.relative_outdent_bonus)
  else
    if ¬blank then 10 * ind - (bonus + p.block_bonus)
    else 10 * ind - bonus

/-- Amended description of `SplitScorer1.evaluate`: no substitution of 0
for a `none` indent happens; instead, when the blank-substituted indent is
`none` the score is 0 with no relation bonus, when `pre_indent` is `none`
the score is the indent with no relation bonus, and only in the dedent
test does a `none` `post_indent` behave like an end of block.  Written as
a flat sum of bonus contributions, unlike the accumulator in
`evaluate1`. -/
def evaluate1Amended (p : Scorer1Params) (m : SplitMeasurements) : Int :=
  let bonus : Int :=
    (if m.pre_indent = none ∧ m.pre_blank = 0 then p.start_of_hunk_bonus else 0)
    + (if m.end_of_hunk then p.end_of_hunk_bonus else 0)
    + (if m.pre_blank ≠ 0 ∧ m.indent ≠ none then p.follows_blank_bonus
       else if m.indent = none ∧ m.pre_blank = 0 then p.precedes_blank_bonus
       else if m.indent = none ∧ m.pre_blank ≠ 0 then p.between_blanks_bonus
       else 0)
  let indO : Option Int := if m.indent.isSome then m.indent else m.post_indent
  let score : Int := indO.getD 0
  let relBonus : Int :=
    match indO, m.pre_indent with
    | none, _ => 0
    | some _, none => 0
    | some i, some pre =>
      if i > pre then p.relative_indent_bonus
      else if i < pre then
        if (match m.post_indent with
            | none => true
            | some post => decide (i ≥ post)) then p.relative_dedent_bonus
        else p.relative_outdent_bonus
      else if m.indent ≠ none then p.block_bonus else 0
  10 * score - (bonus + relBonus)

/-- A placeholder slider used as the default of `List.headD` when reading
the slider out of a concrete `iterSliders` result. -/
def junkSlider : Slider :=
  sliderInit [] (changeUnsafe [⟨'+', "j"⟩]) [] 0

/-- Hunk text of the C1 counterexample: a two-line addition that can slide
down by one (the context line `b` below it equals its first line). -/
def hunkC1lines : List String :=
  ["@@ -1,2 +1,4 @@", " a", "+b", "+c", " b", " x"]

/-- The parsed C1 counterexample hunk. -/
def hunkC1 : Hunk :=
  (hunkInit (some "f") (some "f") hunkC1lines).toOption.getD
    ⟨none, none, 0, none, 0, none, [], []⟩

/-- The slider produced from `hunkC1` by `iter_sliders`. -/
def sliderC1 : Slider :=
  (iterSliders hunkC1).headD junkSlider

/-- The slider of the C4 counterexample: change `[" a", "", "  c"]`
between pre-context `["   p", "  c"]` and post-context `[" a", "   q"]`,
with shift range `[-1, 2)`. -/
def sliderC4 : Slider :=
  sliderInit [⟨' ', "   p"⟩, ⟨' ', "  c"⟩]
    (changeUnsafe [⟨'+', " a"⟩, ⟨'+', ""⟩, ⟨'+', "  c"⟩])
    [⟨' ', " a"⟩, ⟨' ', "   q"⟩] 3

/-- A slider whose computed shift range is `[-3, 4)` (three equal lines on
every side), instantiating scenario S6 of the spec. -/
def sliderC5 : Slider :=
  sliderInit [⟨' ', "x"⟩, ⟨' ', "x"⟩, ⟨' ', "x"⟩]
    (changeUnsafe [⟨'+', "x"⟩, ⟨'+', "x"⟩, ⟨'+', "x"⟩])
    [⟨' ', "x"⟩, ⟨' ', "x"⟩, ⟨' ', "x"⟩] 4

/-- The measurement refuting the C7 substitution claim: a defined indent
with no pre-indent and no blank lines around the split. -/
def mC7 : SplitMeasurements := ⟨false, some 4, 0, none, 0, none⟩

/-- A file section whose old filename is built from a given string (the
section is otherwise fixed and well formed). -/
def mkSection (f : String) : List String :=
  ["diff --git a/x b/x", "index 0000000..1111111 100644",
   "--- a/" ++ f, "+++ b/z"]

/-- A well-formed one-hunk file section following the bad one in the C8
scenario. -/
def goodSection : List String :=
  ["diff --git a/y b/y", "index 2222222..3333333 100644",
   "--- a/y", "+++ b/y", "@@ -1 +1 @@", " x"]

/-- The parse of `goodSection`. -/
def goodFD : FileDiff :=
  { old_sha1 := some "2222222"
    new_sha1 := some "3333333"
    old_filename := some (some "y")
    new_filename := some (some "y")
    hunks := [{ old_filename := some "y"
                new_filename := some "y"
                old_line := 1
                old_len := none
                new_line := 1
                new_len := none
                difflines := [⟨' ', "x"⟩]
                groups := [.context [⟨' ', "x"⟩]] }] }

/-- Claim C9, counterexample: constructing a `DiffLine` from the empty
string is not rejected — `DiffLine.__init__` performs no validation, and
the result holds the empty line. -/
theorem claim_C9_cex : diffLineInit ' ' "" = some ⟨' ', ""⟩ ∧
    (diffLineInit ' ' "").isSome = true := ⟨rfl, rfl⟩

/-- Claim C9 (amended): `DiffLine` construction succeeds for every prefix
and every line, the empty string included; the constructor never fails. -/
theorem claim_C9 : ∀ (p : Char) (l : String), diffLineInit p l = some ⟨p, l⟩ :=
  fun _ _ => rfl

/-- Claim C10: `slide(0)` returns immediately, leaving the whole slider
state — groups, line number, shift range, and the memoized measurement
cache — untouched, whereas every non-zero slide clears the measurement
cache. -/
theorem claim_C10 (sl : Slider) :
    slide sl 0 = sl ∧ ∀ s : Int, s ≠ 0 → (slide sl s).measurements = [] := by
  constructor
  · simp [slide]
  · intro s hs
    simp [slide, hs]

/-- Witness for C10 at a concrete slider and shift. -/
theorem claim_C10_witness : (slide sliderC4 1).measurements = [] :=
  (claim_C10 sliderC4).2 1 (by decide)

/-- Claim C6, counterexample: at `lines = ["a"]` and index 2 the extractor
does not return a measurement at all — the pre-split loop reads
`lines[1]`, an uncaught `IndexError` — although the claim promises a
measurement with `end_of_hunk` true for every index. -/
theorem claim_C6_cex : measureE ["a"] 2 = none := rfl

/-- Claim C7, counterexample: on a measurement with a defined indent, no
surrounding blanks and no `pre_indent`, `SplitScorer1.evaluate` returns 31
(it skips the indent relation entirely), while the claimed
none-substituted-by-0 computation returns 33 (it would add the relative
indent bonus). -/
theorem claim_C7_cex :
    evaluate1 scorer1Defaults mC7 = 31 ∧
    evaluate1Claim scorer1Defaults mC7 = 33 ∧
    evaluate1 scorer1Defaults mC7 ≠ evaluate1Claim scorer1Defaults mC7 := by
  exact ⟨rfl, rfl, by decide⟩

/-- Claim C1, counterexample: for the hunk `[" a", "+b", "+c", " b", " x"]`
and its unique slider, sliding down by the legal shift 1 leaves the hunk's
change group at `["b", "c"]` while the slider's change group becomes
`["c", "b"]` — the hunk's groups do not reflect the new placement, because
slider construction copied the group lists instead of aliasing them. -/
theorem claim_C1_cex :
    hunkInit (some "f") (some "f") hunkC1lines = Except.ok hunkC1 ∧
    (iterSliders hunkC1).length = 1 ∧
    legalShiftD sliderC1 1 ∧
    hunkChangeAt hunkC1 1 ≠ (slide sliderC1 1).change.difflines ∧
    (slide sliderC1 1).change.difflines.map DiffLine.line = ["c", "b"] ∧
    (hunkChangeAt hunkC1 1).map DiffLine.line = ["b", "c"] := by
  exact ⟨rfl, rfl, by decide, by decide, rfl, rfl⟩

/-- Claim C4, counterexample: on `sliderC4` with the default
`SplitScorer3`, `find_best_shift` returns shift 1, but the score of
shift 1 is not minimal: it is not `<=` the score of shift `-1`, while the
converse comparison holds strictly — the compound score's non-transitive
ordering lets the ascending scan drift away from the minimum. -/
theorem claim_C4_cex :
    findBestShiftSl3 sliderC4 scorer3Defaults = 1 ∧
    le3 (getScore3 sliderC4 scorer3Defaults 1)
      (getScore3 sliderC4 scorer3Defaults (-1)) = false ∧
    le3 (getScore3 sliderC4 scorer3Defaults (-1))
      (getScore3 sliderC4 scorer3Defaults 1) = true ∧
    sliderC4.shift_range = (-1, 2) := by
  exact ⟨rfl, rfl, rfl, rfl⟩

/-- Claim C5: `shift_canonically` slides by the largest legal shift
`s_lim - 1` and returns its negation, which is never positive; afterwards
the shift range is `[s_min - (s_lim - 1), 1)`, so a second call slides by
0 (a no-op) and returns 0, leaving the state exactly as after the first
call.  Instantiated at a slider with range `[-3, 4)` this returns `-3` and
leaves range `[-6, 1)` (see the witness). -/
theorem claim_C5 (sl : Slider) (h : 0 < sl.shift_range.2) :
    (shiftCanonically sl).2 = -(sl.shift_range.2 - 1) ∧
    (shiftCanonically sl).2 ≤ 0 ∧
    (shiftCanonically sl).1.shift_range
      = (sl.shift_range.1 - (sl.shift_range.2 - 1), 1) ∧
    shiftCanonically ((shiftCanonically sl).1) = ((shiftCanonically sl).1, 0) := by
  have hrange : (slide sl (sl.shift_range.2 - 1)).shift_range
      = (sl.shift_range.1 - (sl.shift_range.2 - 1), 1) := by
    by_cases hz : sl.shift_range.2 - 1 = 0
    · rw [hz]
      have hid : slide sl 0 = sl := by simp [slide]
      rw [hid, Prod.ext_iff]
      exact ⟨by omega, by omega⟩
    · simp only [slide, hz, if_false]
      rw [Prod.ext_iff]
      exact ⟨rfl, by show sl.shift_range.2 - (sl.shift_range.2 - 1) = 1; omega⟩
  have hsnd : (shiftCanonically sl).2 = -(sl.shift_range.2 - 1) := rfl
  have hle : (shiftCanonically sl).2 ≤ 0 := by
    rw [hsnd]; omega
  have hfst : (shiftCanonically sl).1.shift_range
      = (sl.shift_range.1 - (sl.shift_range.2 - 1), 1) := hrange
  refine ⟨hsnd, hle, hfst, ?_⟩
  have hX : (shiftCanonically sl).1.shift_range.2 = 1 := by rw [hfst]
  generalize (shiftCanonically sl).1 = X at hX ⊢
  show (slide X (X.shift_range.2 - 1), -(X.shift_range.2 - 1)) = (X, 0)
  rw [hX]
  norm_num
  simp [slide]

/-- Witness for C5 at the concrete S6 slider: its computed shift range is
`[-3, 4)`, canonicalization returns `-3`, and the range afterwards is
`[-6, 1)`. -/
theorem claim_C5_witness :
    sliderC5.shift_range = (-3, 4) ∧
    (shiftCanonically sliderC5).2 = -3 ∧
    (shiftCanonically sliderC5).1.shift_range = (-6, 1) := by
  have h := claim_C5 sliderC5 (by decide)
  exact ⟨rfl, by rw [h.1]; rfl, by rw [h.2.2.1]; rfl⟩

/-- Claim C7 (amended): `SplitScorer1.evaluate` applies no substitution of
0 for a missing indent.  With `blank = (indent is none)` and `indent`
replaced by `post_indent` when blank: if the resulting indent is `none`
the score is 0 with no relation bonus; if `pre_indent` is `none` the score
is the indent with no relation bonus; otherwise the indent relation picks
one relation bonus, a `none` `post_indent` counting as an end of block in
the dedent test; the result is `10 * score - bonus`. -/
theorem claim_C7 (p : Scorer1Params) (m : SplitMeasurements) :
    evaluate1 p m = evaluate1Amended p m := by
  rcases m with ⟨eoh, ind, pb, pri, ob, poi⟩
  rcases ind with _ | i <;> rcases pri with _ | pre <;> rcases poi with _ | post <;>
    simp [evaluate1, evaluate1Amended] <;> split_ifs <;> first | omega | ring

/-- Re-prefixing a diffline keeps its text. -/
theorem mapLine_reMk (p : Char) (xs : List DiffLine) :
    (xs.map (fun d => DiffLine.mk p d.line)).map DiffLine.line
      = xs.map DiffLine.line := by
  induction xs with
  | nil => rfl
  | cons x xs ih => simp [ih]

/-- One `slide` call preserves the concatenated line texts of the
slider's groups (for every shift, legal or not: Python's clamping slice
semantics only ever move lines between adjacent groups). -/
theorem slide_sliderTexts (sl : Slider) (s : Int) :
    sliderTexts (slide sl s) = sliderTexts sl := by
  by_cases h0 : s = 0
  · rw [h0]; simp [slide]
  · by_cases hneg : s < 0
    · have hpre := List.take_append_drop (sl.pre_context.length - (-s).toNat)
        (sl.pre_context.map DiffLine.line)
      have hch := List.take_append_drop
        (sl.change.difflines.length - (-s).toNat)
        (sl.change.difflines.map DiffLine.line)
      simp only [sliderTexts, slide, h0, hneg, if_false, if_true,
        List.map_append, mapLine_reMk, List.map_take, List.map_drop]
      conv_rhs => rw [← hpre, ← hch]
      simp only [List.append_assoc]
    · have hch := List.take_append_drop s.toNat
        (sl.change.difflines.map DiffLine.line)
      have hpost := List.take_append_drop s.toNat
        (sl.post_context.map DiffLine.line)
      simp only [sliderTexts, slide, h0, hneg, if_false,
        List.map_append, mapLine_reMk, List.map_take, List.map_drop]
      conv_rhs => rw [← hch, ← hpost]
      simp only [List.append_assoc]

/-- A sequence of `slide` calls preserves the concatenated line texts. -/
theorem slideSeq_sliderTexts (shifts : List Int) :
    ∀ sl : Slider, sliderTexts (slideSeq sl shifts) = sliderTexts sl := by
  induction shifts with
  | nil => intro sl; rfl
  | cons s rest ih =>
    intro sl
    show sliderTexts (slideSeq (slide sl s) rest) = _
    rw [ih (slide sl s), slide_sliderTexts]

/-- Slides on the joint state leave the hunk component untouched. -/
theorem worldSlideSeq_hunk (shifts : List Int) :
    ∀ w : World, (worldSlideSeq w shifts).hunk = w.hunk := by
  induction shifts with
  | nil => intro w; rfl
  | cons s rest ih => intro w; exact ih (worldSlide w s)

/-- Claim C2: over any sequence of slide calls with legal shifts on a
slider of a hunk, no line text is altered — the concatenated line texts
over pre-context, change, post-context equal the original — and the
containing hunk (hence its old-side and new-side line sequences) is
unchanged in content and order. -/
theorem claim_C2 (h : Hunk) (sl : Slider) (shifts : List Int)
    (hmem : sl ∈ iterSliders h) (hleg : legalSeqB sl shifts = true) :
    sliderTexts (slideSeq sl shifts) = sliderTexts sl ∧
    (worldSlideSeq ⟨h, sl⟩ shifts).hunk = h ∧
    hunkOldLines (worldSlideSeq ⟨h, sl⟩ shifts).hunk = hunkOldLines h ∧
    hunkNewLines (worldSlideSeq ⟨h, sl⟩ shifts).hunk = hunkNewLines h := by
  have hw := worldSlideSeq_hunk shifts ⟨h, sl⟩
  exact ⟨slideSeq_sliderTexts shifts sl, hw, by rw [hw], by rw [hw]⟩

/-- Witness for C2: the slider of `hunkC1` slid by the legal shift 1. -/
theorem claim_C2_witness :
    sliderTexts (slideSeq sliderC1 [1]) = sliderTexts sliderC1 ∧
    (worldSlideSeq ⟨hunkC1, sliderC1⟩ [1]).hunk = hunkC1 ∧
    hunkOldLines (worldSlideSeq ⟨hunkC1, sliderC1⟩ [1]).hunk = hunkOldLines hunkC1 ∧
    hunkNewLines (worldSlideSeq ⟨hunkC1, sliderC1⟩ [1]).hunk = hunkNewLines hunkC1 :=
  claim_C2 hunkC1 sliderC1 [1] (by decide) (by decide)

/-- Claim C1 (amended): `slide(s)` mutates only the slider's own groups —
moving `|s|` lines between its change group and its own pre/post context
groups, shifting `shift_range` by `-s` and `line_number` by `s` — while
the hunk's groups are unchanged, because `Slider` construction copies the
hunk's diffline lists (`Group.__init__`/`Change.__init__` take
`list(difflines)` copies), so the slider's change group is not aliased
with the hunk's change group. -/
theorem claim_C1 (w : World) (s : Int) :
    (worldSlide w s).hunk = w.hunk ∧
    (s < 0 →
      (slide w.slider s).pre_context
        = w.slider.pre_context.take
            (w.slider.pre_context.length - (-s).toNat) ∧
      (slide w.slider s).change.difflines
        = (w.slider.pre_context.drop
            (w.slider.pre_context.length - (-s).toNat)).map
              (fun d => DiffLine.mk w.slider.change.pfx d.line)
          ++ w.slider.change.difflines.take
              (w.slider.change.difflines.length - (-s).toNat) ∧
      (slide w.slider s).post_context
        = (w.slider.change.difflines.drop
            (w.slider.change.difflines.length - (-s).toNat)).map
              (fun d => DiffLine.mk ' ' d.line)
          ++ w.slider.post_context) ∧
    (0 < s →
      (slide w.slider s).pre_context
        = w.slider.pre_context
          ++ (w.slider.change.difflines.take s.toNat).map
              (fun d => DiffLine.mk ' ' d.line) ∧
      (slide w.slider s).change.difflines
        = w.slider.change.difflines.drop s.toNat
          ++ (w.slider.post_context.take s.toNat).map
              (fun d => DiffLine.mk w.slider.change.pfx d.line) ∧
      (slide w.slider s).post_context
        = w.slider.post_context.drop s.toNat) ∧
    (s ≠ 0 →
      (slide w.slider s).shift_range
        = (w.slider.shift_range.1 - s, w.slider.shift_range.2 - s) ∧
      (slide w.slider s).line_number = w.slider.line_number + s ∧
      (slide w.slider s).measurements = []) := by
  refine ⟨rfl, ?_, ?_, ?_⟩
  · intro hneg
    have h0 : s ≠ 0 := by omega
    simp [slide, h0, hneg]
  · intro hpos
    have h0 : s ≠ 0 := by omega
    have hneg : ¬ s < 0 := by omega
    simp [slide, h0, hneg]
  · intro h0
    by_cases hneg : s < 0 <;> simp [slide, h0, hneg]

/-- Witness for C1 (amended) at the concrete hunk/slider world and
shift 1. -/
theorem claim_C1_witness :
    (worldSlide ⟨hunkC1, sliderC1⟩ 1).hunk = hunkC1 ∧
    (slide sliderC1 1).pre_context
      = sliderC1.pre_context
        ++ (sliderC1.change.difflines.take 1).map
            (fun d => DiffLine.mk ' ' d.line) ∧
    (slide sliderC1 1).shift_range
      = (sliderC1.shift_range.1 - 1, sliderC1.shift_range.2 - 1) := by
  have h := claim_C1 ⟨hunkC1, sliderC1⟩ 1
  exact ⟨h.1, (h.2.2.1 (by decide)).1, (h.2.2.2 (by decide)).1⟩

/-- Characterisation of the while loops of `_compute_shift_range`: starting
from a state whose predecessors all satisfied the loop condition, with
enough fuel that the condition fails before it runs out, `whileCount`
stops exactly at the first failure. -/
theorem whileCount_spec (ok : Nat → Bool) :
    ∀ (fuel d : Nat), (∀ k, k < d → ok k = true) → ok (d + fuel) = false →
      (∀ k, k < whileCount ok d fuel → ok k = true) ∧
        ok (whileCount ok d fuel) = false := by
  intro fuel
  induction fuel with
  | zero =>
    intro d hpre hend
    exact ⟨hpre, hend⟩
  | succ n ih =>
    intro d hpre hend
    by_cases hd : ok d = true
    · have hpre' : ∀ k, k < d + 1 → ok k = true := by
        intro k hk
        rcases Nat.lt_succ_iff_lt_or_eq.1 hk with h | h
        · exact hpre k h
        · rw [h]; exact hd
      have hend' : ok (d + 1 + n) = false := by
        have : d + 1 + n = d + (n + 1) := by omega
        rw [this]; exact hend
      have := ih (d + 1) hpre' hend'
      simpa [whileCount, hd] using this
    · have hdf : ok d = false := by
        revert hd; cases ok d <;> simp
      simp only [whileCount, hdf, Bool.false_eq_true, if_false]
      exact ⟨hpre, trivial⟩

/-- The downward loop condition, unfolded to a proposition. -/
theorem downOk_iff (pre ch : List DiffLine) (k : Nat) :
    downOk pre ch k = true ↔
      k < pre.length ∧ k < ch.length ∧
        lineAt pre (pre.length - 1 - k) = lineAt ch (ch.length - 1 - k) := by
  simp [downOk, and_assoc]

/-- The upward loop condition, unfolded to a proposition. -/
theorem upOk_iff (ch post : List DiffLine) (u : Nat) :
    upOk ch post u = true ↔
      u < ch.length ∧ u < post.length ∧ lineAt ch u = lineAt post u := by
  simp [upOk, and_assoc]

/-- Claim C3: for a freshly constructed slider, `shift_range = [s_min,
s_lim)` satisfies `s_min ≤ 0 < s_lim`; every shift in the range satisfies
the pairwise line-equality condition; and neither `s_min - 1` nor `s_lim`
satisfies its condition (a pair differs or a required index is out of
bounds). -/
theorem claim_C3 (pre : List DiffLine) (c : Change) (post : List DiffLine)
    (ln : Int) :
    (sliderInit pre c post ln).shift_range.1 ≤ 0 ∧
    0 < (sliderInit pre c post ln).shift_range.2 ∧
    (∀ s : Int, (sliderInit pre c post ln).shift_range.1 ≤ s →
      s < (sliderInit pre c post ln).shift_range.2 →
      LegalShift pre c.difflines post s) ∧
    ¬ LegalShift pre c.difflines post
        ((sliderInit pre c post ln).shift_range.1 - 1) ∧
    ¬ LegalShift pre c.difflines post
        (sliderInit pre c post ln).shift_range.2 := by
  have hr : (sliderInit pre c post ln).shift_range
      = computeShiftRange pre c.difflines post := rfl
  set ch := c.difflines with hch
  set down := whileCount (downOk pre ch) 0 (min pre.length ch.length) with hdowndef
  set up := whileCount (upOk ch post) 0 (min ch.length post.length) with hupdef
  have hr2 : (sliderInit pre c post ln).shift_range
      = (-(down : Int), (up : Int) + 1) := hr
  have hdend : downOk pre ch (0 + min pre.length ch.length) = false := by
    rw [Nat.zero_add]
    have ht : ¬ (min pre.length ch.length < pre.length
        ∧ min pre.length ch.length < ch.length) := by omega
    revert ht
    cases hb : downOk pre ch (min pre.length ch.length)
    · intro _; rfl
    · intro ht
      have := (downOk_iff pre ch _).1 hb
      exact absurd ⟨this.1, this.2.1⟩ ht
  have huend : upOk ch post (0 + min ch.length post.length) = false := by
    rw [Nat.zero_add]
    have ht : ¬ (min ch.length post.length < ch.length
        ∧ min ch.length post.length < post.length) := by omega
    revert ht
    cases hb : upOk ch post (min ch.length post.length)
    · intro _; rfl
    · intro ht
      have := (upOk_iff ch post _).1 hb
      exact absurd ⟨this.1, this.2.1⟩ ht
  have hdspec := whileCount_spec (downOk pre ch) (min pre.length ch.length) 0
    (by intro k hk; omega) hdend
  have huspec := whileCount_spec (upOk ch post) (min ch.length post.length) 0
    (by intro k hk; omega) huend
  rw [← hdowndef] at hdspec
  rw [← hupdef] at huspec
  obtain ⟨hdall, hdstop⟩ := hdspec
  obtain ⟨huall, hustop⟩ := huspec
  rw [hr2]
  refine ⟨by omega, by omega, ?_, ?_, ?_⟩
  · intro s hs1 hs2
    unfold LegalShift
    by_cases hsn : s < 0
    · rw [if_pos hsn]
      have hn : (-s).toNat ≤ down := by omega
      have hb : (-s).toNat ≤ pre.length ∧ (-s).toNat ≤ ch.length := by
        rcases Nat.eq_zero_or_pos (-s).toNat with h0 | h0
        · omega
        · have := (downOk_iff pre ch _).1 (hdall ((-s).toNat - 1) (by omega))
          omega
      refine ⟨hb.1, hb.2, ?_⟩
      intro k hk
      exact ((downOk_iff pre ch k).1 (hdall k (by omega))).2.2
    · rw [if_neg hsn]
      have hn : s.toNat ≤ up := by omega
      have hb : s.toNat ≤ ch.length ∧ s.toNat ≤ post.length := by
        rcases Nat.eq_zero_or_pos s.toNat with h0 | h0
        · omega
        · have := (upOk_iff ch post _).1 (huall (s.toNat - 1) (by omega))
          omega
      refine ⟨hb.1, hb.2, ?_⟩
      intro k hk
      exact ((upOk_iff ch post k).1 (huall k (by omega))).2.2
  · have hneg : -(down : Int) - 1 < 0 := by omega
    unfold LegalShift
    rw [if_pos hneg]
    rintro ⟨hb1, hb2, hpair⟩
    have ht : (-(-(down : Int) - 1)).toNat = down + 1 := by omega
    rw [ht] at hb1 hb2 hpair
    have : downOk pre ch down = true := (downOk_iff pre ch down).2
      ⟨by omega, by omega, hpair down (by omega)⟩
    rw [this] at hdstop
    exact absurd hdstop (by simp)
  · have hpos : ¬ ((up : Int) + 1 < 0) := by omega
    unfold LegalShift
    rw [if_neg hpos]
    rintro ⟨hb1, hb2, hpair⟩
    have ht : ((up : Int) + 1).toNat = up + 1 := by omega
    rw [ht] at hb1 hb2 hpair
    have : upOk ch post up = true := (upOk_iff ch post up).2
      ⟨by omega, by omega, hpair up (by omega)⟩
    rw [this] at hustop
    exact absurd hustop (by simp)

/-- Witness for C3 at the C4 slider: the computed range is `[-1, 2)`,
shift `-1` is legal, and neither `-2` nor `2` is. -/
theorem claim_C3_witness :
    LegalShift [⟨' ', "   p"⟩, ⟨' ', "  c"⟩]
      (changeUnsafe [⟨'+', " a"⟩, ⟨'+', ""⟩, ⟨'+', "  c"⟩]).difflines
      [⟨' ', " a"⟩, ⟨' ', "   q"⟩] (-1) ∧
    ¬ LegalShift [⟨' ', "   p"⟩, ⟨' ', "  c"⟩]
      (changeUnsafe [⟨'+', " a"⟩, ⟨'+', ""⟩, ⟨'+', "  c"⟩]).difflines
      [⟨' ', " a"⟩, ⟨' ', "   q"⟩] 2 := by
  have h := claim_C3 [⟨' ', "   p"⟩, ⟨' ', "  c"⟩]
    (changeUnsafe [⟨'+', " a"⟩, ⟨'+', ""⟩, ⟨'+', "  c"⟩])
    [⟨' ', " a"⟩, ⟨' ', "   q"⟩] 3
  refine ⟨h.2.2.1 (-1) (by decide) (by decide), ?_⟩
  have := h.2.2.2.2
  exact this

/-- The pre-split scan loop, characterised on its safe domain: starting at
index `i ≤ len(lines)` with `b` blanks already counted, it returns `b`
plus the number of trailing blank lines of `lines[:i]`, together with the
indent of the nearest non-blank line above them. -/
theorem preScanE_eq (lines : List String) :
    ∀ (i b : Nat), i ≤ lines.length →
      preScanE lines i b = some
        (b + ((lines.take i).reverse.takeWhile isBlankS).length,
         (((lines.take i).reverse.dropWhile isBlankS).head?).bind getIndent) := by
  intro i
  induction i with
  | zero => intro b _; simp [preScanE]
  | succ n ih =>
    intro b hle
    have hn : n < lines.length := by omega
    obtain ⟨l, hl⟩ : ∃ l, lines.get? n = some l := by
      rcases hg : lines.get? n with _ | l
      · rw [List.get?_eq_none] at hg; omega
      · exact ⟨l, rfl⟩
    have hl2 : lines[n]? = some l := by rw [← List.get?_eq_getElem?]; exact hl
    have htake : (lines.take (n + 1)).reverse = l :: (lines.take n).reverse := by
      rw [List.take_succ, hl2]
      simp
    rw [htake]
    simp only [preScanE, hl]
    cases hgi : getIndent l with
    | some v =>
      have hbl : isBlankS l = false := by simp [isBlankS, hgi]
      simp [List.takeWhile_cons, List.dropWhile_cons, hbl, hgi]
    | none =>
      have hbl : isBlankS l = true := by simp [isBlankS, hgi]
      rw [ih (b + 1) (by omega)]
      simp only [List.takeWhile_cons, List.dropWhile_cons, hbl, if_true,
        List.length_cons, Option.some.injEq, Prod.mk.injEq]
      exact ⟨by omega, trivial⟩

/-- The post-split scan loop, characterised: the number of leading blank
lines of its input and the indent of the first non-blank line after
them. -/
theorem postScan_eq (l : List String) :
    postScan l = ((l.takeWhile isBlankS).length,
      ((l.dropWhile isBlankS).head?).bind getIndent) := by
  induction l with
  | nil => rfl
  | cons x rest ih =>
    cases hgi : getIndent x with
    | some v =>
      have hbl : isBlankS x = false := by simp [isBlankS, hgi]
      simp [postScan, hgi, List.takeWhile_cons, List.dropWhile_cons, hbl]
    | none =>
      have hbl : isBlankS x = true := by simp [isBlankS, hgi]
      simp [postScan, hgi, List.takeWhile_cons, List.dropWhile_cons, hbl, ih]

/-- Claim C6 (amended): on every index `j ≤ len(lines)` — for larger
indices the extractor raises, see the counterexample — `measure` returns
exactly the measurement described by the claim: `end_of_hunk` iff `j ≥
len(lines)`, `indent` of `lines[j]` or none when blank or past the end,
the blank run and nearest non-blank indent above `j`, and the blank run
and nearest non-blank indent after `lines[j]`; the result is a pure
function of the line array and the index. -/
theorem claim_C6 (lines : List String) (j : Nat) (h : j ≤ lines.length) :
    measureE lines j = some (specMeasure lines j) := by
  unfold measureE specMeasure
  rw [preScanE_eq lines j 0 h, postScan_eq]
  cases hg : lines.get? j with
  | none =>
    have hlen : lines.length ≤ j := List.get?_eq_none.1 hg
    simp [Option.bind, hlen, hg]
  | some l =>
    have hlen : ¬ lines.length ≤ j := by
      intro hle
      rw [List.get?_eq_none.2 hle] at hg
      cases hg
    simp [Option.bind, hlen, hg]

/-- Witness for C6 (amended) at a concrete array and index. -/
theorem claim_C6_witness :
    measureE ["", " a"] 2 = some (specMeasure ["", " a"] 2) :=
  claim_C6 ["", " a"] 2 (by decide)

/-- Python `range(a, b)` is `a` followed by `range(a + 1, b)` when
nonempty. -/
theorem intRange_cons (a b : Int) (h : a < b) :
    intRange a b = a :: intRange (a + 1) b := by
  unfold intRange
  have hn : (b - a).toNat = (b - (a + 1)).toNat + 1 := by omega
  rw [hn]
  rfl

/-- Membership in an ascending enumeration. -/
theorem intRangeGo_mem (n : Nat) :
    ∀ (a x : Int), x ∈ intRangeGo a n ↔ a ≤ x ∧ x < a + n := by
  induction n with
  | zero => intro a x; simp [intRangeGo]
  | succ m ih =>
    intro a x
    simp only [intRangeGo, List.mem_cons, ih (a + 1)]
    omega

/-- Membership in `intRange` is the half-open interval condition. -/
theorem intRange_mem (a b x : Int) : x ∈ intRange a b ↔ a ≤ x ∧ x < b := by
  unfold intRange
  rw [intRangeGo_mem]
  omega

/-- An ascending enumeration is strictly sorted. -/
theorem intRangeGo_pairwise (n : Nat) :
    ∀ a : Int, (intRangeGo a n).Pairwise (· < ·) := by
  induction n with
  | zero => intro a; exact List.Pairwise.nil
  | succ m ih =>
    intro a
    rw [intRangeGo, List.pairwise_cons]
    refine ⟨fun y hy => ?_, ih (a + 1)⟩
    have := (intRangeGo_mem m (a + 1) y).1 hy
    omega

/-- `intRange` is strictly ascending. -/
theorem intRange_pairwise (a b : Int) : (intRange a b).Pairwise (· < ·) :=
  intRangeGo_pairwise _ a

/-- Correctness of the ascending accept-on-`<=` scan for an integer
(totally ordered) score: starting from an accepted base `b0` below an
ascending list, the final best shift is an element whose score is minimal,
and among equal scores the largest (that is, last-scanned) element. -/
theorem fbs_scan_spec (f : Int → Int) :
    ∀ (l : List Int) (b0 : Int), (b0 :: l).Pairwise (· < ·) →
      ((l.foldl (fbsStep f (fun x y => decide (x ≤ y))) (b0, some (f b0))).1 = b0
        ∨ (l.foldl (fbsStep f (fun x y => decide (x ≤ y))) (b0, some (f b0))).1 ∈ l) ∧
      f (l.foldl (fbsStep f (fun x y => decide (x ≤ y))) (b0, some (f b0))).1 ≤ f b0 ∧
      (∀ x ∈ l,
        f (l.foldl (fbsStep f (fun x y => decide (x ≤ y))) (b0, some (f b0))).1 ≤ f x) ∧
      (∀ x, (x = b0 ∨ x ∈ l) →
        f x = f (l.foldl (fbsStep f (fun x y => decide (x ≤ y))) (b0, some (f b0))).1 →
        x ≤ (l.foldl (fbsStep f (fun x y => decide (x ≤ y))) (b0, some (f b0))).1) := by
  intro l
  induction l with
  | nil =>
    intro b0 _
    refine ⟨Or.inl rfl, le_refl _, by simp, ?_⟩
    rintro x (rfl | hx) _
    · exact le_refl _
    · cases hx
  | cons x xs ih =>
    intro b0 hp
    rw [List.pairwise_cons] at hp
    obtain ⟨hb0lt, hpxxs⟩ := hp
    have hb0x : b0 < x := hb0lt x (by simp)
    rw [List.foldl_cons]
    by_cases hacc : f x ≤ f b0
    · have hstep : fbsStep f (fun x y => decide (x ≤ y)) (b0, some (f b0)) x
          = (x, some (f x)) := by
        simp [fbsStep, hacc]
      rw [hstep]
      obtain ⟨hmem, hle, hall, htie⟩ := ih x hpxxs
      have hxler : x ≤ (xs.foldl (fbsStep f (fun x y => decide (x ≤ y)))
          (x, some (f x))).1 := by
        rcases hmem with he | hm
        · omega
        · have := (List.pairwise_cons.1 hpxxs).1 _ hm
          omega
      refine ⟨?_, le_trans hle hacc, ?_, ?_⟩
      · rcases hmem with he | hm
        · exact Or.inr (by simp [he])
        · exact Or.inr (by simp [hm])
      · intro y hy
        rcases List.mem_cons.1 hy with rfl | hy2
        · exact hle
        · exact hall y hy2
      · rintro y (rfl | hy) hfy
        · omega
        · rcases List.mem_cons.1 hy with rfl | hy2
          · exact htie y (Or.inl rfl) hfy
          · exact htie y (Or.inr hy2) hfy
    · have hstep : fbsStep f (fun x y => decide (x ≤ y)) (b0, some (f b0)) x
          = (b0, some (f b0)) := by
        simp [fbsStep, hacc]
      rw [hstep]
      have hpb0xs : (b0 :: xs).Pairwise (· < ·) := by
        rw [List.pairwise_cons]
        exact ⟨fun y hy => hb0lt y (by simp [hy]), (List.pairwise_cons.1 hpxxs).2⟩
      obtain ⟨hmem, hle, hall, htie⟩ := ih b0 hpb0xs
      have hfx : f b0 < f x := by omega
      refine ⟨?_, hle, ?_, ?_⟩
      · rcases hmem with he | hm
        · exact Or.inl he
        · exact Or.inr (by simp [hm])
      · intro y hy
        rcases List.mem_cons.1 hy with rfl | hy2
        · omega
        · exact hall y hy2
      · rintro y (rfl | hy) hfy
        · exact htie y (Or.inl rfl) hfy
        · rcases List.mem_cons.1 hy with rfl | hy2
          · exact absurd hfy (by omega)
          · exact htie y (Or.inr hy2) hfy

/-- The score comparison of `SplitScore3` is reflexive. -/
theorem le3_refl (c : SplitScore3) : le3 c c = true := by
  simp [le3]

/-- On a constant score, the scan accepts every shift, so it ends on the
last one. -/
theorem fbs_fold_const (c : α) (le : α → α → Bool) (hrefl : le c c = true) :
    ∀ (l : List Int) (b : Int),
      (l.foldl (fbsStep (fun _ => c) le) (b, some c)).1 = l.getLastD b := by
  intro l
  induction l with
  | nil => intro b; rfl
  | cons x xs ih =>
    intro b
    rw [List.foldl_cons]
    have hstep : fbsStep (fun _ => c) le (b, some c) x = (x, some c) := by
      simp [fbsStep, hrefl]
    rw [hstep, ih]
    rcases xs with _ | ⟨y, ys⟩ <;> simp [List.getLastD]

/-- Claim C4 (amended): `find_best_shift` scans the whole shift range in
ascending order, accepting on `score <= best`.  For an integer-valued
score (the `SplitScorer1`/`SplitScorer2` case, any parameters) the result
lies in the range, attains the minimal score, and among the minimisers is
the largest shift; for the compound `SplitScore3` a constant-scoring range
`[-2, 3)` still yields `2` (ties go to the largest shift).  For a
non-constant `SplitScore3` score the returned shift need not be minimal
(see the counterexample): the compound comparison is not transitive. -/
theorem claim_C4 :
    (∀ (a b : Int) (f : Int → Int), a < b →
      (a ≤ findBestShiftInt (a, b) f ∧ findBestShiftInt (a, b) f < b) ∧
      (∀ s : Int, a ≤ s → s < b → f (findBestShiftInt (a, b) f) ≤ f s) ∧
      (∀ s : Int, a ≤ s → s < b → f s = f (findBestShiftInt (a, b) f) →
        s ≤ findBestShiftInt (a, b) f)) ∧
    (∀ c : SplitScore3, findBestShift (-2, 3) (fun _ => c) le3 = 2) := by
  constructor
  · intro a b f hab
    unfold findBestShiftInt findBestShift
    by_cases h1 : b - a = 1
    · simp only [h1, if_true]
      refine ⟨⟨le_refl a, hab⟩, ?_, ?_⟩
      · intro s hs1 hs2
        have : s = a := by omega
        rw [this]
      · intro s hs1 hs2 _
        omega
    · simp only [h1, if_false]
      rw [intRange_cons a b hab, List.foldl_cons]
      have hstep : fbsStep f (fun x y => decide (x ≤ y)) (0, none) a
          = (a, some (f a)) := rfl
      rw [hstep]
      have hpw : (a :: intRange (a + 1) b).Pairwise (· < ·) := by
        rw [← intRange_cons a b hab]
        exact intRange_pairwise a b
      obtain ⟨hmem, hle, hall, htie⟩ := fbs_scan_spec f (intRange (a + 1) b) a hpw
      refine ⟨?_, ?_, ?_⟩
      · rcases hmem with he | hm
        · rw [he]; exact ⟨le_refl a, hab⟩
        · have := (intRange_mem (a + 1) b _).1 hm
          exact ⟨by omega, this.2⟩
      · intro s hs1 hs2
        rcases eq_or_lt_of_le hs1 with rfl | hlt
        · exact hle
        · exact hall s ((intRange_mem (a + 1) b s).2 ⟨by omega, hs2⟩)
      · intro s hs1 hs2 hfs
        rcases eq_or_lt_of_le hs1 with rfl | hlt
        · exact htie _ (Or.inl rfl) hfs
        · exact htie s (Or.inr ((intRange_mem (a + 1) b s).2 ⟨by omega, hs2⟩)) hfs
  · intro c
    unfold findBestShift
    norm_num
    have he : intRange (-2) 3 = [-2, -1, 0, 1, 2] := rfl
    rw [he, List.foldl_cons]
    have hstep : fbsStep (fun _ => c) le3 (0, none) (-2) = (-2, some c) := rfl
    rw [hstep, fbs_fold_const c le3 (le3_refl c)]
    rfl

/-- Witness for C4 (amended): the integer-score part applied to
`SplitScorer1` with default parameters on the C4 slider. -/
theorem claim_C4_witness :
    (-1 : Int) ≤ findBestShiftInt (-1, 2) (getScore1 sliderC4 scorer1Defaults) ∧
    findBestShiftInt (-1, 2) (getScore1 sliderC4 scorer1Defaults) < 2 ∧
    getScore1 sliderC4 scorer1Defaults
        (findBestShiftInt (-1, 2) (getScore1 sliderC4 scorer1Defaults))
      ≤ getScore1 sliderC4 scorer1Defaults 0 := by
  obtain ⟨hb, hmin, _⟩ :=
    (claim_C4.1 (-1) 2 (getScore1 sliderC4 scorer1Defaults) (by norm_num))
  exact ⟨hb.1, hb.2, hmin 0 (by norm_num) (by norm_num)⟩

/-- Reconstructing a string from its character data. -/
theorem strMkData (s : String) : String.mk s.data = s := by cases s; rfl

/-- A boolean `if` whose condition is known true. -/
theorem bool_ite_true {α : Sort _} {c : Bool} (A B : α) (h : c = true) :
    (if c then A else B) = A := by rw [h]; simp

/-- Claim C8: during envelope parsing, an old filename that differs from
its POSIX shell-quoted form (for example one containing a space, see the
witness) raises a `ParsingError` for that file section; the outer
iteration catches the error, emits it as a diagnostic, and continues with
the next file section, which parses normally. -/
theorem claim_C8 : ∀ f : String, shlexQuote f ≠ f →
    parseFileDiff (mkSection f)
      = .error (.parsing "filename is not safe for shell commands") ∧
    iterFileDiffs (mkSection f ++ goodSection)
      = .ok [.inl "filename is not safe for shell commands", .inr goodFD] ∧
    parseFileDiff goodSection = .ok goodFD := by
  intro f h
  rcases f with ⟨d⟩
  have hu : filenameUnsafe (some (String.mk d)) = true := by
    simp only [filenameUnsafe]
    exact decide_eq_true h
  have h1 : parseFileDiff (mkSection (String.mk d))
      = .error (.parsing "filename is not safe for shell commands") :=
    bool_ite_true _ _ hu
  refine ⟨h1, ?_, rfl⟩
  show iterFDGo [mkSection (String.mk d), goodSection] = _
  simp only [iterFDGo]
  rw [h1]
  rfl

/-- Witness for C8: a filename containing a space is not equal to its
quoted form, so its section fails and iteration continues to the good
section. -/
theorem claim_C8_witness :
    parseFileDiff (mkSection "my file")
      = .error (.parsing "filename is not safe for shell commands") ∧
    iterFileDiffs (mkSection "my file" ++ goodSection)
      = .ok [.inl "filename is not safe for shell commands", .inr goodFD] ∧
    parseFileDiff goodSection = .ok goodFD :=
  claim_C8 "my file" (by decide)
